import Mathlib

/-!
Shallow embedding of the placeholder-image service (`main.go`) and proofs
about its parameter-resolution pipeline.

Modelling conventions:
* Go strings are modelled as Lean `String` / `List Char`.  All inputs the
  claims are settled on are ASCII, where Go's byte indexing coincides with
  character indexing.
* Go's `int` is modelled as `Int` with the 64-bit range checks of
  `strconv` made explicit (the service is built for a 64-bit platform).
* A Go runtime panic (slice bounds out of range) is modelled as the
  distinguished outcome `none` / `HexResult.crash`; it is distinct from a
  returned `error` value.
* float64 values are modelled exactly over `ℚ`; binary rounding at the
  extremes of the float64 range (overflow and underflow, which
  `strconv.ParseFloat` reports as errors) is idealized by exact rational
  comparisons against the float64 range bounds.
-/

set_option maxRecDepth 8000

namespace Placeholder

/-- RGBA color with four 8-bit channels, mirroring Go `color.RGBA`. -/
structure RGBA where
  r : Nat
  g : Nat
  b : Nat
  a : Nat
deriving DecidableEq, Repr

/-- Mirrors `clamp(value, min, max int) int` from main.go. -/
def clamp (value lo hi : Int) : Int :=
  if value < lo then lo
  else if value > hi then hi
  else value

/-- Decimal digit value of a character, byte-compared as Go does. -/
def digitVal (c : Char) : Option Nat :=
  if 48 ≤ c.toNat ∧ c.toNat ≤ 57 then some (c.toNat - 48) else none

/-- Accumulate base-10 digits; fails on the first non-digit. -/
def decAccum : List Char → Nat → Option Nat
  | [], acc => some acc
  | c :: rest, acc =>
    match digitVal c with
    | none => none
    | some d => decAccum rest (acc * 10 + d)

/-- Mirrors Go `strconv.Atoi` (= `ParseInt(s, 10, 0)` on a 64-bit
platform): optional single sign, then at least one decimal digit, value
within the `int64` range; anything else is an error (`none`). -/
def goAtoi (s : String) : Option Int :=
  let signAndDigits : Int × List Char :=
    match s.data with
    | '+' :: rest => (1, rest)
    | '-' :: rest => (-1, rest)
    | cs => (1, cs)
  let sign := signAndDigits.1
  let ds := signAndDigits.2
  if ds = [] then none
  else
    match decAccum ds 0 with
    | none => none
    | some n =>
      let v : Int := sign * (n : Int)
      if v < -(2 ^ 63) ∨ (2 ^ 63 - 1 : Int) < v then none else some v

/-- Mirrors Go `strings.Split(s, sep)` for a one-character separator:
split at every occurrence, keeping empty parts; the empty string yields
one empty part. -/
def splitOnChar (sep : Char) : List Char → List (List Char)
  | [] => [[]]
  | c :: rest =>
    let r := splitOnChar sep rest
    if c = sep then [] :: r
    else
      match r with
      | [] => [[c]]
      | hd :: tl => (c :: hd) :: tl

/-- Mirrors `parseDimensions(dimensions []string) (int, int)` from
main.go: two parts are parsed independently with fallback 150, a single
part on success is used for both dimensions, any other part count keeps
the 150x150 defaults, and both results are clamped into [150, 3000]. -/
def parseDimensions (dimensions : List String) : Int × Int :=
  let wh : Int × Int :=
    match dimensions with
    | [d0, d1] => ((goAtoi d0).getD 150, (goAtoi d1).getD 150)
    | [d0] =>
      match goAtoi d0 with
      | some s => (s, s)
      | none => (150, 150)
    | _ => (150, 150)
  (clamp wh.1 150 3000, clamp wh.2 150 3000)

/-- Mirrors `(i *Image).setSize`: split the size path parameter on "x"
and resolve the dimensions. -/
def setSize (size : String) : Int × Int :=
  parseDimensions ((splitOnChar 'x' size.data).map String.mk)

/-- Hexadecimal digit value of a character (0-9, a-f, A-F),
byte-compared as Go `strconv.ParseUint` with base 16 does. -/
def hexDigitVal (c : Char) : Option Nat :=
  if 48 ≤ c.toNat ∧ c.toNat ≤ 57 then some (c.toNat - 48)
  else if 97 ≤ c.toNat ∧ c.toNat ≤ 102 then some (c.toNat - 87)
  else if 65 ≤ c.toNat ∧ c.toNat ≤ 70 then some (c.toNat - 55)
  else none

/-- Accumulate base-16 digits; fails on the first non-hex character. -/
def hexAccum : List Char → Nat → Option Nat
  | [], acc => some acc
  | c :: rest, acc =>
    match hexDigitVal c with
    | none => none
    | some d => hexAccum rest (acc * 16 + d)

/-- Mirrors Go `strconv.ParseUint(s, 16, 0)` on a 64-bit platform: at
least one hex digit, no sign, value within the `uint64` range. -/
def goParseUintHex (cs : List Char) : Option Nat :=
  if cs = [] then none
  else
    match hexAccum cs 0 with
    | none => none
    | some v => if v < 2 ^ 64 then some v else none

/-- Go string slicing `s[i:j]`: returns the slice when `i ≤ j ≤ len(s)`
and `none` (a runtime panic) otherwise. -/
def goSlice (cs : List Char) (i j : Nat) : Option (List Char) :=
  if i ≤ j ∧ j ≤ cs.length then some ((cs.drop i).take (j - i)) else none

/-- Outcome of `hexToRGBA`: a returned color, a returned `error`, or a
runtime panic (slice bounds out of range). -/
inductive HexResult where
  | ok (c : RGBA)
  | fail
  | crash
deriving DecidableEq, Repr

/-- Mirrors `hexToRGBA(hex string) (color.RGBA, error)` from main.go,
including the out-of-range slices `hex[4:6]` (taken whenever the length
guard passed) and `hex[6:10]` (taken when the length is exactly 8), which
panic at runtime for the lengths the guard admits but the slices do not.
The 3-digit branch doubles each digit in place. `uint8` conversions are
the value mod 256. -/
def hexToRGBA (hex0 : List Char) : HexResult :=
  match hex0 with
  | [] => .crash
  | c :: rest =>
    let hex1 := if c = '#' then rest else c :: rest
    if hex1.length ≤ 2 ∨ 9 ≤ hex1.length then .fail
    else
      let hex := if hex1.length = 3 then (hex1.map (fun ch => [ch, ch])).flatten else hex1
      match goSlice hex 0 2 with
      | none => .crash
      | some rs =>
        match goParseUintHex rs with
        | none => .fail
        | some r =>
          match goSlice hex 2 4 with
          | none => .crash
          | some gs =>
            match goParseUintHex gs with
            | none => .fail
            | some g =>
              match goSlice hex 4 6 with
              | none => .crash
              | some bs =>
                match goParseUintHex bs with
                | none => .fail
                | some b =>
                  if hex.length = 8 then
                    match goSlice hex 6 10 with
                    | none => .crash
                    | some alphas =>
                      match goParseUintHex alphas with
                      | none => .fail
                      | some a => .ok ⟨r % 256, g % 256, b % 256, a % 256⟩
                  else .ok ⟨r % 256, g % 256, b % 256, 255⟩

/-- Mirrors `parseHexColor(hex string, defaultColor color.RGBA)` from
main.go: empty input gives the default; one leading '#' is stripped; a
length in [3, 8] is passed to `hexToRGBA`, with a 3-character string
first replaced by `strings.Repeat(hex, 2)` (the string repeated twice,
not each digit doubled); any returned error falls back to the default.
`none` models a propagated runtime panic. -/
def parseHexColorL (hex : List Char) (defaultColor : RGBA) : Option RGBA :=
  match hex with
  | [] => some defaultColor
  | c :: rest =>
    let hex1 := if c = '#' then rest else c :: rest
    if 3 ≤ hex1.length ∧ hex1.length ≤ 8 then
      let hex2 := if hex1.length = 3 then hex1 ++ hex1 else hex1
      match hexToRGBA hex2 with
      | .ok rgba => some rgba
      | .fail => some defaultColor
      | .crash => none
    else some defaultColor

/-- String-level wrapper of `parseHexColorL`. -/
def parseHexColor (hex : String) (defaultColor : RGBA) : Option RGBA :=
  parseHexColorL hex.data defaultColor

/-- Default background color `#D4D4D4` opaque, from `setColors`. -/
def defaultBg : RGBA := ⟨0xD4, 0xD4, 0xD4, 0xFF⟩

/-- Default foreground color `#737373` opaque, from `setColors`. -/
def defaultFg : RGBA := ⟨0x73, 0x73, 0x73, 0xFF⟩

/-- Mirrors `(i *Image).setColors`: resolve background then foreground;
`none` models a runtime panic escaping the handler. -/
def setColors (hexBg hexFg : String) : Option (RGBA × RGBA) :=
  match parseHexColor hexBg defaultBg with
  | none => none
  | some bg =>
    match parseHexColor hexFg defaultFg with
    | none => none
    | some fg => some (bg, fg)

/-- Lowercase an ASCII letter, mirroring Go strconv's per-byte
`c | 0x20` at the comparisons where it is used (the compared-to bytes are
lowercase letters, and only the letter and its uppercase form map to a
given lowercase letter under `c | 0x20`). -/
def lowerAscii (c : Char) : Char :=
  if 65 ≤ c.toNat ∧ c.toNat ≤ 90 then Char.ofNat (c.toNat + 32) else c

/-- Decimal digit test as a Bool. -/
def isDecDigit (c : Char) : Bool :=
  decide (48 ≤ c.toNat ∧ c.toNat ≤ 57)

/-- Hex digit test as a Bool. -/
def isHexDigitChar (c : Char) : Bool :=
  (hexDigitVal c).isSome

/-- Value of a run of decimal digits. -/
def natValDec (cs : List Char) : Nat :=
  cs.foldl (fun a c => a * 10 + (c.toNat - 48)) 0

/-- Value of a run of hex digits (only applied to valid hex digits). -/
def natValHex (cs : List Char) : Nat :=
  cs.foldl (fun a c => a * 16 + (hexDigitVal c).getD 0) 0

/-- Integer power of ten over the rationals. -/
def qpow10 : Int → ℚ
  | .ofNat n => (10 : ℚ) ^ n
  | .negSucc n => 1 / (10 : ℚ) ^ (n + 1)

/-- Integer power of two over the rationals. -/
def qpow2 : Int → ℚ
  | .ofNat n => (2 : ℚ) ^ n
  | .negSucc n => 1 / (2 : ℚ) ^ (n + 1)

/-- Largest finite float64 value, `(2^53 - 1) * 2^971`. -/
def maxFloat : ℚ := ((2 ^ 53 - 1) * 2 ^ 971 : Nat)

/-- Half the smallest positive subnormal float64; nonzero decimal values
below it round to zero with an out-of-range error. -/
def underflowBound : ℚ := qpow2 (-1075)

/-- Mirrors strconv's `underscoreOK` scan: `saw` tracks the class of the
previous byte ('^' start, '0' digit or base prefix, '_' underscore,
'!' other); each underscore must follow and be followed by a digit. -/
def underscoreScan (hex : Bool) : List Char → Char → Bool
  | [], saw => saw ≠ '_'
  | c :: rest, saw =>
    if (48 ≤ c.toNat ∧ c.toNat ≤ 57) ∨
        (hex ∧ 97 ≤ (lowerAscii c).toNat ∧ (lowerAscii c).toNat ≤ 102) then
      underscoreScan hex rest '0'
    else if c = '_' then
      if saw = '0' then underscoreScan hex rest '_' else false
    else if saw = '_' then false
    else underscoreScan hex rest '!'

/-- Mirrors strconv's `underscoreOK`: optional sign, optional `0x`
prefix (which counts as a digit for separator purposes), then the scan. -/
def underscoreOK (cs : List Char) : Bool :=
  let cs1 :=
    match cs with
    | '+' :: r => r
    | '-' :: r => r
    | _ => cs
  match cs1 with
  | '0' :: x :: r =>
    if lowerAscii x = 'x' then underscoreScan true r '0'
    else underscoreScan false cs1 '^'
  | _ => underscoreScan false cs1 '^'

/-- Exponent part of a float literal: optional sign then at least one
decimal digit, consuming the whole remainder. -/
def parseSignedExp (cs : List Char) : Option Int :=
  let signAndDigits : Int × List Char :=
    match cs with
    | '+' :: r => (1, r)
    | '-' :: r => (-1, r)
    | _ => (1, cs)
  let sign := signAndDigits.1
  let r := signAndDigits.2
  if r ≠ [] ∧ r.all isDecDigit then some (sign * (natValDec r : Int)) else none

/-- Optional decimal exponent `e`/`E` after a decimal mantissa. -/
def parseDecExp (m : ℚ) : List Char → Option ℚ
  | [] => some m
  | c :: r =>
    if lowerAscii c = 'e' then (parseSignedExp r).map (fun e => m * qpow10 e)
    else none

/-- Unsigned decimal mantissa with optional fraction and exponent:
`digits [. digits] [e [sign] digits]` with at least one mantissa digit. -/
def parseDecBody (cs : List Char) : Option ℚ :=
  let ids := cs.takeWhile isDecDigit
  let r1 := cs.dropWhile isDecDigit
  match r1 with
  | '.' :: r2 =>
    let fds := r2.takeWhile isDecDigit
    let r3 := r2.dropWhile isDecDigit
    if ids.length + fds.length = 0 then none
    else parseDecExp ((natValDec (ids ++ fds) : ℚ) * qpow10 (-(fds.length : Int))) r3
  | _ =>
    if ids = [] then none else parseDecExp (natValDec ids : ℚ) r1

/-- Unsigned hex mantissa after the `0x` prefix: hex digits with optional
fraction, then a required binary exponent `p [sign] digits`. -/
def parseHexBody (cs : List Char) : Option ℚ :=
  let ids := cs.takeWhile isHexDigitChar
  let r1 := cs.dropWhile isHexDigitChar
  let state : Bool × ℚ × List Char :=
    match r1 with
    | '.' :: r2 =>
      let fds := r2.takeWhile isHexDigitChar
      let r3 := r2.dropWhile isHexDigitChar
      (decide (0 < ids.length + fds.length),
       (natValHex (ids ++ fds) : ℚ) * qpow2 (-4 * (fds.length : Int)), r3)
    | _ => (decide (0 < ids.length), (natValHex ids : ℚ), r1)
  if state.1 then
    match state.2.2 with
    | c :: r2 =>
      if lowerAscii c = 'p' then (parseSignedExp r2).map (fun e => state.2.1 * qpow2 e)
      else none
    | [] => none
  else none

/-- Signed numeric float literal: sign, then hex (`0x`) or decimal body. -/
def parseFloatBody (cs : List Char) : Option ℚ :=
  let signAndRest : ℚ × List Char :=
    match cs with
    | '+' :: r => (1, r)
    | '-' :: r => (-1, r)
    | _ => (1, cs)
  let sgn := signAndRest.1
  let cs1 := signAndRest.2
  let body :=
    match cs1 with
    | '0' :: x :: rest =>
      if lowerAscii x = 'x' then parseHexBody rest else parseDecBody cs1
    | _ => parseDecBody cs1
  body.map (fun q => sgn * q)

/-- A float64 value as far as the resolver observes it. -/
inductive GoFloat where
  | finite (q : ℚ)
  | posInf
  | negInf
  | nan
deriving DecidableEq, Repr

/-- Mirrors Go `strconv.ParseFloat(s, 64)`: case-insensitive infinity
and NaN forms, otherwise a signed decimal or hex float literal with
Go's underscore rules.  `none` is a returned error: syntax errors, and
out-of-range values (overflow to infinity and underflow to zero return
`ErrRange`, which the caller treats as failure).  Binary rounding is
idealized: finite in-range literals are kept as their exact rational
value. -/
def goParseFloat (s : String) : Option GoFloat :=
  let cs := s.data
  let low := cs.map lowerAscii
  if low = ['i', 'n', 'f'] ∨ low = ['+', 'i', 'n', 'f'] ∨
      low = ['i', 'n', 'f', 'i', 'n', 'i', 't', 'y'] ∨
      low = ['+', 'i', 'n', 'f', 'i', 'n', 'i', 't', 'y'] then some .posInf
  else if low = ['-', 'i', 'n', 'f'] ∨
      low = ['-', 'i', 'n', 'f', 'i', 'n', 'i', 't', 'y'] then some .negInf
  else if low = ['n', 'a', 'n'] then some .nan
  else if underscoreOK cs then
    match parseFloatBody (cs.filter (fun c => c ≠ '_')) with
    | none => none
    | some q =>
      if maxFloat < q ∨ q < -maxFloat ∨
          (q ≠ 0 ∧ q < underflowBound ∧ -underflowBound < q) then none
      else some (.finite q)
  else none

/-- Mirrors `parseFontSize(font string, defaultSize float64)` from
main.go: any successful parse is used as-is (no positivity check),
otherwise the supplied default. -/
def parseFontSize (font : String) (defaultSize : ℚ) : GoFloat :=
  match goParseFloat font with
  | some v => v
  | none => .finite defaultSize

/-- Mirrors `(i *Image).setText`: a non-empty caller text is used
verbatim, otherwise the text is "{width}x{height}" from the resolved
dimensions (Go `fmt.Sprintf("%dx%d", ...)`). -/
def setText (text : String) (width height : Int) : String :=
  if 0 < text.length then text else toString width ++ "x" ++ toString height

/-- Query and path parameters of one request, as the handler reads
them. -/
structure Request where
  size : String
  fontSize : String
  text : String
  bg : String
  fg : String
deriving DecidableEq, Repr

/-- The resolved per-request image state (fields of Go `Image` that the
resolvers fill in). -/
structure GoImage where
  width : Int
  height : Int
  text : String
  fontSize : GoFloat
  bg : RGBA
  fg : RGBA
deriving DecidableEq, Repr

/-- Mirrors the resolver part of `imageHandler`: `setSize`, `setFont`,
`setText`, `setColors`, in handler order.  `none` models the runtime
panic that `setColors` can raise. -/
def resolve (req : Request) : Option GoImage :=
  let wh := setSize req.size
  let fs := parseFontSize req.fontSize ((wh.1 : ℚ) / 5)
  let txt := setText req.text wh.1 wh.2
  match setColors req.bg req.fg with
  | none => none
  | some colors => some ⟨wh.1, wh.2, txt, fs, colors.1, colors.2⟩

/-- Go `unicode.IsSpace` on the code points `strings.Fields` separates
on: ASCII whitespace, NEL, NBSP, and the Unicode space separators. -/
def isGoSpace (c : Char) : Bool :=
  decide (c.toNat = 32 ∨ (9 ≤ c.toNat ∧ c.toNat ≤ 13) ∨ c.toNat = 0x85 ∨
    c.toNat = 0xA0 ∨ c.toNat = 0x1680 ∨ (0x2000 ≤ c.toNat ∧ c.toNat ≤ 0x200A) ∨
    c.toNat = 0x2028 ∨ c.toNat = 0x2029 ∨ c.toNat = 0x202F ∨
    c.toNat = 0x205F ∨ c.toNat = 0x3000)

/-- Split a character list into maximal runs of non-whitespace
characters; `cur` holds the current run in reverse. -/
def fieldsAux : List Char → List Char → List (List Char)
  | [], cur => if cur = [] then [] else [cur.reverse]
  | c :: rest, cur =>
    if isGoSpace c then
      if cur = [] then fieldsAux rest []
      else cur.reverse :: fieldsAux rest []
    else fieldsAux rest (c :: cur)

/-- Mirrors Go `strings.Fields`: the whitespace-separated words of a
string, in order, all non-empty. -/
def goFields (s : String) : List String :=
  (fieldsAux s.data []).map String.mk

/-- Join words with single spaces, as `wrapText` builds line strings. -/
def joinWords : List String → String
  | [] => ""
  | [w] => w
  | w :: ws => w ++ " " ++ joinWords ws

/-- The loop of `wrapText` from main.go.  `measureString` is the opaque
`drawer.MeasureString` (a 26.6 fixed-point advance width); the measured
width of a candidate line is its integer division by 64, compared to
`maxWidth`.  A candidate that exceeds the width commits the current line
(when non-empty) and starts a new line with the word; otherwise the
candidate becomes the current line. -/
def wrapLoop (measureString : String → Int) (maxWidth : Int) :
    List String → String → List String → List String
  | [], currentLine, lines =>
    if 0 < currentLine.length then lines ++ [currentLine] else lines
  | word :: rest, currentLine, lines =>
    let testLine := (if 0 < currentLine.length then currentLine ++ " " else currentLine) ++ word
    let currentWidth := Int.tdiv (measureString testLine) 64
    if currentWidth > maxWidth then
      wrapLoop measureString maxWidth rest word
        (if 0 < currentLine.length then lines ++ [currentLine] else lines)
    else
      wrapLoop measureString maxWidth rest testLine lines

/-- Mirrors `wrapText(text string, drawer *font.Drawer, maxWidth float64)`
from main.go: split into fields then run the greedy line-fill loop.  In
`apply`, `maxWidth` is `width - 30`. -/
def wrapText (text : String) (measureString : String → Int) (maxWidth : Int) :
    List String :=
  wrapLoop measureString maxWidth (goFields text) "" []

section Proofs

lemma clamp_bounds (v lo hi : Int) (h : lo ≤ hi) :
    lo ≤ clamp v lo hi ∧ clamp v lo hi ≤ hi := by
  unfold clamp
  split_ifs <;> omega

lemma parseDimensions_bounds (ds : List String) :
    150 ≤ (parseDimensions ds).1 ∧ (parseDimensions ds).1 ≤ 3000 ∧
    150 ≤ (parseDimensions ds).2 ∧ (parseDimensions ds).2 ≤ 3000 := by
  obtain ⟨w, h, hw⟩ :
      ∃ w h, parseDimensions ds = (clamp w 150 3000, clamp h 150 3000) := by
    unfold parseDimensions
    exact ⟨_, _, rfl⟩
  rw [hw]
  have h1 := clamp_bounds w 150 3000 (by omega)
  have h2 := clamp_bounds h 150 3000 (by omega)
  exact ⟨h1.1, h1.2, h2.1, h2.2⟩

/-- C1: for every size path parameter the resolved width and height are
integers in [150, 3000]; with two "x"-separated parts each part is parsed
independently with fallback 150 on parse failure, a single part on
successful parse is used for both dimensions, any other part count yields
150x150, and each dimension is clamped into [150, 3000]. -/
theorem size_resolution_c1 :
    (∀ size : String,
      150 ≤ (setSize size).1 ∧ (setSize size).1 ≤ 3000 ∧
      150 ≤ (setSize size).2 ∧ (setSize size).2 ≤ 3000) ∧
    (∀ d0 d1 : String, parseDimensions [d0, d1] =
      (clamp ((goAtoi d0).getD 150) 150 3000,
       clamp ((goAtoi d1).getD 150) 150 3000)) ∧
    (∀ (d0 : String) (n : Int), goAtoi d0 = some n →
      parseDimensions [d0] = (clamp n 150 3000, clamp n 150 3000)) ∧
    (∀ d0 : String, goAtoi d0 = none → parseDimensions [d0] = (150, 150)) ∧
    (∀ ds : List String, ds.length ≠ 1 → ds.length ≠ 2 →
      parseDimensions ds = (150, 150)) := by
  refine ⟨fun size => parseDimensions_bounds _, fun d0 d1 => rfl, ?_, ?_, ?_⟩
  · intro d0 n h
    simp [parseDimensions, h]
  · intro d0 h
    simp [parseDimensions, h]
    rfl
  · intro ds h1 h2
    match ds with
    | [] => rfl
    | [a] => exact absurd rfl h1
    | [a, b] => exact absurd rfl h2
    | a :: b :: c :: rest => rfl

/-- Witness for C1 at concrete inputs. -/
theorem size_resolution_c1_witness :
    (150 ≤ (setSize "5000x20").1 ∧ (setSize "5000x20").1 ≤ 3000 ∧
     150 ≤ (setSize "5000x20").2 ∧ (setSize "5000x20").2 ≤ 3000) ∧
    parseDimensions ["200"] = (clamp 200 150 3000, clamp 200 150 3000) ∧
    parseDimensions ["abc"] = (150, 150) ∧
    parseDimensions ["1", "2", "3"] = (150, 150) :=
  ⟨size_resolution_c1.1 "5000x20",
   size_resolution_c1.2.2.1 "200" 200 (by decide),
   size_resolution_c1.2.2.2.1 "abc" (by decide),
   size_resolution_c1.2.2.2.2 ["1", "2", "3"] (by decide) (by decide)⟩

/-- C2 (code bug): "abcde" is a hex color of invalid length (5) made of
valid hex digits; the claim says the resolver returns the role default
and never fails, but the code panics: `hexToRGBA` evaluates `hex[4:6]`
on a 5-byte string, a slice out of range. -/
theorem hex_color_totality_c2_bug :
    parseHexColor "abcde" defaultBg = none ∧
    parseHexColor "abcde" defaultFg = none ∧
    goSlice "abcde".data 4 6 = none := by decide

/-- C3 (code bug): on the valid 8-digit color "ff000080" the claim says
alpha resolves to 0x80, but the code evaluates `hex[6:10]` on an 8-byte
string and panics before parsing the alpha byte. -/
theorem hex_alpha_c3_bug :
    parseHexColor "ff000080" defaultBg = none ∧
    hexToRGBA "ff000080".data = .crash ∧
    goSlice "ff000080".data 6 10 = none := by decide

/-- C4 (code bug): the claim (and `hexToRGBA`'s own 3-digit branch) says
"abc" expands by doubling each digit to "aabbcc", i.e. channels
(0xAA, 0xBB, 0xCC); but `parseHexColor` pre-expands via
`strings.Repeat("abc", 2) = "abcabc"`, so the resolver decodes channels
(0xAB, 0xCA, 0xBC) and the per-digit branch is unreachable from it. -/
theorem short_hex_c4_bug :
    parseHexColor "abc" defaultBg = some ⟨0xAB, 0xCA, 0xBC, 0xFF⟩ ∧
    hexToRGBA "abc".data = .ok ⟨0xAA, 0xBB, 0xCC, 0xFF⟩ ∧
    (0xCA : Nat) ≠ 0xBB := by decide

lemma hexDigitVal_le (c : Char) (d : Nat) (h : hexDigitVal c = some d) :
    d ≤ 15 := by
  unfold hexDigitVal at h
  split_ifs at h <;> simp_all <;> omega

/-- C10: a color string of two leading '#' characters followed by six
hex digits is accepted: the outer resolver strips one '#', the inner
decoder strips the second, and the six digits decode as R, G, B with
alpha 255. -/
theorem double_hash_c10 (c1 c2 c3 c4 c5 c6 : Char) (d1 d2 d3 d4 d5 d6 : Nat)
    (h1 : hexDigitVal c1 = some d1) (h2 : hexDigitVal c2 = some d2)
    (h3 : hexDigitVal c3 = some d3) (h4 : hexDigitVal c4 = some d4)
    (h5 : hexDigitVal c5 = some d5) (h6 : hexDigitVal c6 = some d6)
    (defaultColor : RGBA) :
    parseHexColor (String.mk ['#', '#', c1, c2, c3, c4, c5, c6]) defaultColor =
      some ⟨16 * d1 + d2, 16 * d3 + d4, 16 * d5 + d6, 255⟩ := by
  have b1 := hexDigitVal_le c1 d1 h1
  have b2 := hexDigitVal_le c2 d2 h2
  have b3 := hexDigitVal_le c3 d3 h3
  have b4 := hexDigitVal_le c4 d4 h4
  have b5 := hexDigitVal_le c5 d5 h5
  have b6 := hexDigitVal_le c6 d6 h6
  have e1 : d1 * 16 + d2 < 18446744073709551616 := by omega
  have e2 : d3 * 16 + d4 < 18446744073709551616 := by omega
  have e3 : d5 * 16 + d6 < 18446744073709551616 := by omega
  simp only [parseHexColor, parseHexColorL, hexToRGBA, goSlice, goParseUintHex,
    hexAccum, h1, h2, h3, h4, h5, h6]
  norm_num [List.take, List.drop, hexAccum, h2, h4, h6]
  simp only [h1, h3, h5, e1, e2, e3, if_true, List.cons_ne_nil, if_false]
  norm_num [Option.some.injEq, RGBA.mk.injEq]
  omega

/-- Witness for C10: "##ff0000" resolves to opaque red. -/
theorem double_hash_c10_witness :
    parseHexColor "##ff0000" defaultBg = some ⟨0xFF, 0, 0, 0xFF⟩ := by
  have h := double_hash_c10 'f' 'f' '0' '0' '0' '0' 15 15 0 0 0 0
    rfl rfl rfl rfl rfl rfl defaultBg
  simpa using h

lemma five_le_maxFloat : (5 : ℚ) ≤ maxFloat := by
  have h1 : (5 : Nat) ≤ 2 ^ 971 := by
    calc (5 : Nat) ≤ 2 ^ 3 := by norm_num
    _ ≤ 2 ^ 971 := Nat.pow_le_pow_right (by norm_num) (by norm_num)
  have h2 : (2 ^ 971 : Nat) ≤ (2 ^ 53 - 1) * 2 ^ 971 := by
    have h3 : 1 ≤ (2 ^ 53 - 1 : Nat) := by norm_num
    calc (2 ^ 971 : Nat) = 1 * 2 ^ 971 := (one_mul _).symm
    _ ≤ (2 ^ 53 - 1) * 2 ^ 971 := Nat.mul_le_mul_right _ h3
  unfold maxFloat
  exact_mod_cast le_trans h1 h2

lemma underflowBound_pos : 0 < underflowBound := by
  have h : underflowBound = 1 / (2 : ℚ) ^ 1075 := rfl
  rw [h]
  positivity

lemma underflowBound_le_one : underflowBound ≤ 1 := by
  have h : underflowBound = 1 / (2 : ℚ) ^ 1075 := rfl
  rw [h, div_le_one (by positivity)]
  exact one_le_pow₀ (by norm_num)

lemma rangeCheck_neg5 :
    ¬(maxFloat < (-5 : ℚ) ∨ (-5 : ℚ) < -maxFloat ∨
      ((-5 : ℚ) ≠ 0 ∧ (-5 : ℚ) < underflowBound ∧
        -underflowBound < (-5 : ℚ))) := by
  have h1 := five_le_maxFloat
  have h2 := underflowBound_le_one
  have h3 := underflowBound_pos
  rintro (h | h | ⟨-, h4, h5⟩) <;> linarith

lemma goParseFloat_neg5 : goParseFloat "-5" = some (.finite (-5)) := by
  have hq : ((-1 : ℚ) * (natValDec ['5'] : ℚ)) = -5 := by
    have h5 : natValDec ['5'] = 5 := rfl
    rw [h5]
    norm_num
  have step1 : goParseFloat "-5" =
      (if maxFloat < (-1 : ℚ) * (natValDec ['5'] : ℚ) ∨
          (-1 : ℚ) * (natValDec ['5'] : ℚ) < -maxFloat ∨
          ((-1 : ℚ) * (natValDec ['5'] : ℚ) ≠ 0 ∧
            (-1 : ℚ) * (natValDec ['5'] : ℚ) < underflowBound ∧
            -underflowBound < (-1 : ℚ) * (natValDec ['5'] : ℚ)) then none
        else some (.finite ((-1 : ℚ) * (natValDec ['5'] : ℚ)))) := rfl
  rw [step1, hq, if_neg rangeCheck_neg5]

lemma goParseFloat_empty : goParseFloat "" = none := by decide

lemma parseFontSize_neg5 (d : ℚ) : parseFontSize "-5" d = .finite (-5) := by
  unfold parseFontSize
  rw [goParseFloat_neg5]

lemma parseFontSize_default (s : String) (d : ℚ) (h : goParseFloat s = none) :
    parseFontSize s d = .finite d := by
  unfold parseFontSize
  rw [h]

lemma resolve_eq (req : Request) (w h : Int) (fs : GoFloat) (txt : String)
    (bg fg : RGBA)
    (hs : setSize req.size = (w, h))
    (hf : parseFontSize req.fontSize ((w : ℚ) / 5) = fs)
    (ht : setText req.text w h = txt)
    (hc : setColors req.bg req.fg = some (bg, fg)) :
    resolve req = some ⟨w, h, txt, fs, bg, fg⟩ := by
  simp [resolve, hs, hf, ht, hc]

lemma resolve_none (req : Request) (hc : setColors req.bg req.fg = none) :
    resolve req = none := by
  simp [resolve, hc]

/-- C5 (counterexample): "-5" parses successfully as a float but is not
positive; the claim says the resolved font size should then be
width / 5 = 30 for a 150-wide image, yet the pipeline resolves it to -5. -/
theorem font_size_c5_counterexample :
    (resolve ⟨"150", "-5", "t", "", ""⟩).map GoImage.fontSize =
      some (.finite (-5)) ∧
    GoFloat.finite (-5) ≠ .finite ((150 : ℚ) / 5) := by
  constructor
  · have h := resolve_eq ⟨"150", "-5", "t", "", ""⟩ 150 150 (.finite (-5)) "t"
      defaultBg defaultFg (by decide) (parseFontSize_neg5 _) (by decide) (by decide)
    rw [h]
    rfl
  · simp only [ne_eq, GoFloat.finite.injEq]
    norm_num

/-- C5 (amended): if the fontSize query string parses successfully as a
float — any float, including zero and negative values — the resolved
font size is that value; otherwise it is resolved-width / 5. -/
theorem font_size_c5_amended (req : Request) (img : GoImage)
    (h : resolve req = some img) :
    (∀ v : GoFloat, goParseFloat req.fontSize = some v → img.fontSize = v) ∧
    (goParseFloat req.fontSize = none →
      img.fontSize = .finite ((img.width : ℚ) / 5)) := by
  unfold resolve at h
  rcases hc : setColors req.bg req.fg with _ | colors <;> rw [hc] at h
  · exact absurd h (by simp)
  · simp only [Option.some.injEq] at h
    subst h
    constructor
    · intro v hv
      simp [parseFontSize, hv]
    · intro hv
      simp [parseFontSize, hv]

/-- Witness for C5 (amended) at the request /150?fontSize=-5. -/
theorem font_size_c5_amended_witness :
    (GoImage.mk 150 150 "t" (.finite (-5)) defaultBg defaultFg).fontSize =
      .finite (-5) :=
  (font_size_c5_amended ⟨"150", "-5", "t", "", ""⟩
    (GoImage.mk 150 150 "t" (.finite (-5)) defaultBg defaultFg)
    (resolve_eq ⟨"150", "-5", "t", "", ""⟩ 150 150 (.finite (-5)) "t"
      defaultBg defaultFg (by decide) (parseFontSize_neg5 _) (by decide)
      (by decide))).1 (.finite (-5)) goParseFloat_neg5

/-- C8: a non-empty caller text is used verbatim; an empty one resolves
to "{width}x{height}" built from the already-resolved (split, parsed,
clamped) dimensions. -/
theorem text_resolution_c8 (req : Request) (img : GoImage)
    (h : resolve req = some img) :
    (req.text ≠ "" → img.text = req.text) ∧
    (req.text = "" →
      img.text = toString img.width ++ "x" ++ toString img.height) ∧
    img.width = (setSize req.size).1 ∧ img.height = (setSize req.size).2 := by
  unfold resolve at h
  rcases hc : setColors req.bg req.fg with _ | colors <;> rw [hc] at h
  · exact absurd h (by simp)
  · simp only [Option.some.injEq] at h
    subst h
    refine ⟨?_, ?_, rfl, rfl⟩
    · intro hne
      have hlen : 0 < req.text.length := by
        rcases req with ⟨_, _, t, _, _⟩
        rcases t with ⟨tdata⟩
        rcases tdata with _ | ⟨c, cs⟩
        · simp at hne
        · simp [String.length]
      simp [setText, hlen]
    · intro he
      simp [setText, he]

/-- Witness for C8 at the requests /300x100 and /300x100?text=hi. -/
theorem text_resolution_c8_witness :
    (GoImage.mk 300 150 "300x150" (.finite ((300 : ℚ) / 5)) defaultBg
        defaultFg).text =
      toString (GoImage.mk 300 150 "300x150" (.finite ((300 : ℚ) / 5))
        defaultBg defaultFg).width ++ "x" ++
      toString (GoImage.mk 300 150 "300x150" (.finite ((300 : ℚ) / 5))
        defaultBg defaultFg).height ∧
    (GoImage.mk 300 150 "hi" (.finite ((300 : ℚ) / 5)) defaultBg
        defaultFg).text = "hi" :=
  ⟨(text_resolution_c8 ⟨"300x100", "", "", "", ""⟩
      (GoImage.mk 300 150 "300x150" (.finite ((300 : ℚ) / 5)) defaultBg
        defaultFg)
      (resolve_eq ⟨"300x100", "", "", "", ""⟩ 300 150
        (.finite ((300 : ℚ) / 5)) "300x150" defaultBg defaultFg (by decide)
        (parseFontSize_default "" _ goParseFloat_empty) (by decide)
        (by decide))).2.1 rfl,
   (text_resolution_c8 ⟨"300x100", "", "hi", "", ""⟩
      (GoImage.mk 300 150 "hi" (.finite ((300 : ℚ) / 5)) defaultBg defaultFg)
      (resolve_eq ⟨"300x100", "", "hi", "", ""⟩ 300 150
        (.finite ((300 : ℚ) / 5)) "hi" defaultBg defaultFg (by decide)
        (parseFontSize_default "" _ goParseFloat_empty) (by decide)
        (by decide))).1 (by decide)⟩

/-- C9 (code bug): the claim says malformed color parameters never
produce an error and the pipeline yields an image unless font parsing or
PNG encoding fails; but the request /300x100?bg=abcd&text=hello panics
inside `setColors` (slice out of range in `hexToRGBA`) before any
drawing, surfacing as an HTTP 500 through the recovery middleware. -/
theorem pipeline_failure_c9_bug :
    resolve ⟨"300x100", "", "hello", "abcd", ""⟩ = none ∧
    setColors "abcd" "" = none :=
  ⟨resolve_none ⟨"300x100", "", "hello", "abcd", ""⟩ (by decide), by decide⟩

lemma strDataAppend (s t : String) : (s ++ t).data = s.data ++ t.data := by
  rcases s with ⟨a⟩
  rcases t with ⟨b⟩
  rfl

lemma strEqEmptyIffData (s : String) : s = "" ↔ s.data = [] := by
  rw [String.ext_iff]

lemma strLengthPosIff (s : String) : 0 < s.length ↔ s ≠ "" := by
  have hl : s.length = s.data.length := rfl
  rw [hl, List.length_pos]
  exact (not_congr (strEqEmptyIffData s)).symm

lemma strAppendNeEmptyRight (s t : String) (h : t ≠ "") : s ++ t ≠ "" := by
  rw [ne_eq, strEqEmptyIffData, strDataAppend, List.append_eq_nil]
  rw [ne_eq, strEqEmptyIffData] at h
  simp [h]

lemma strAppendAssoc (a b c : String) : a ++ b ++ c = a ++ (b ++ c) := by
  rcases a with ⟨as⟩
  rcases b with ⟨bs⟩
  rcases c with ⟨cs⟩
  show String.mk ((as ++ bs) ++ cs) = String.mk (as ++ (bs ++ cs))
  rw [List.append_assoc]

lemma strEmptyAppend (s : String) : "" ++ s = s := by
  rcases s with ⟨d⟩
  show String.mk ([] ++ d) = String.mk d
  rw [List.nil_append]

lemma joinWords_append_one (ws : List String) (w : String) :
    joinWords (ws ++ [w]) =
      if ws = [] then w else joinWords ws ++ " " ++ w := by
  induction ws with
  | nil => simp [joinWords]
  | cons a as ih =>
    cases as with
    | nil => simp [joinWords]
    | cons b bs =>
      have h1 : joinWords (a :: (b :: bs ++ [w])) =
          a ++ " " ++ joinWords (b :: bs ++ [w]) := rfl
      simp only [List.cons_append] at *
      rw [h1, ih]
      simp only [List.cons_ne_nil, if_false, ite_false]
      rw [show joinWords (a :: b :: bs) = a ++ " " ++ joinWords (b :: bs) from rfl]
      simp only [strAppendAssoc]

lemma joinWords_ne_empty : ∀ ws : List String, ws ≠ [] →
    (∀ w ∈ ws, w ≠ "") → joinWords ws ≠ "" := by
  intro ws
  induction ws with
  | nil =>
    intro h1 _
    exact absurd rfl h1
  | cons w tail ih =>
    intro h1 h2
    cases tail with
    | nil => exact h2 w (by simp)
    | cons v vs =>
      show w ++ " " ++ joinWords (v :: vs) ≠ ""
      exact strAppendNeEmptyRight _ _
        (ih (by simp) (fun x hx => h2 x (by simp [hx])))

lemma wrapLoop_nil (m : String → Int) (maxW : Int) (cl : String)
    (lines : List String) :
    wrapLoop m maxW [] cl lines =
      if 0 < cl.length then lines ++ [cl] else lines := rfl

lemma wrapLoop_cons (m : String → Int) (maxW : Int) (word : String)
    (rest : List String) (cl : String) (lines : List String) :
    wrapLoop m maxW (word :: rest) cl lines =
      (if Int.tdiv (m ((if 0 < cl.length then cl ++ " " else cl) ++ word)) 64 >
          maxW then
        wrapLoop m maxW rest word
          (if 0 < cl.length then lines ++ [cl] else lines)
      else
        wrapLoop m maxW rest ((if 0 < cl.length then cl ++ " " else cl) ++ word)
          lines) := rfl

lemma wrapLoop_partition (m : String → Int) (maxW : Int) :
    ∀ (words cur : List String) (acc : List (List String)),
      (∀ w ∈ words, w ≠ "") → (∀ w ∈ cur, w ≠ "") → (∀ ws ∈ acc, ws ≠ []) →
      ∃ wss : List (List String),
        wss.flatten = acc.flatten ++ cur ++ words ∧
        (∀ ws ∈ wss, ws ≠ []) ∧
        wrapLoop m maxW words (joinWords cur) (acc.map joinWords) =
          wss.map joinWords := by
  intro words
  induction words with
  | nil =>
    intro cur acc hw hcur hacc
    by_cases hc : cur = []
    · subst hc
      refine ⟨acc, by simp, hacc, ?_⟩
      rw [wrapLoop_nil]
      simp [joinWords]
    · refine ⟨acc ++ [cur], by simp, ?_, ?_⟩
      · intro ws hws
        rcases List.mem_append.mp hws with h | h
        · exact hacc ws h
        · simp only [List.mem_singleton] at h
          subst h
          exact hc
      · have hne := joinWords_ne_empty cur hc hcur
        have hpos : 0 < (joinWords cur).length := (strLengthPosIff _).mpr hne
        rw [wrapLoop_nil, if_pos hpos, List.map_append]
        rfl
  | cons word rest ih =>
    intro cur acc hw hcur hacc
    have hwne : word ≠ "" := hw word (by simp)
    have hrest : ∀ w ∈ rest, w ≠ "" := fun w hmem => hw w (by simp [hmem])
    by_cases hc : cur = []
    · subst hc
      have hpos : ¬ 0 < (joinWords ([] : List String)).length := by
        simp [joinWords]
      rw [wrapLoop_cons]
      simp only [if_neg hpos]
      have hword : ("" : String) ++ word = word := strEmptyAppend word
      have hjw : joinWords ([] : List String) = "" := rfl
      rw [hjw, hword]
      obtain ⟨wss, hflat, hne, heq⟩ :=
        ih [word] acc (fun w hmem => hrest w hmem)
          (fun w hmem => by simp only [List.mem_singleton] at hmem; subst hmem; exact hwne)
          hacc
      have hjw1 : joinWords [word] = word := rfl
      rw [hjw1] at heq
      by_cases hgt : Int.tdiv (m word) 64 > maxW
      · rw [if_pos hgt]
        exact ⟨wss, by simpa using hflat, hne, heq⟩
      · rw [if_neg hgt]
        exact ⟨wss, by simpa using hflat, hne, heq⟩
    · have hne := joinWords_ne_empty cur hc hcur
      have hpos : 0 < (joinWords cur).length := (strLengthPosIff _).mpr hne
      have htest : (joinWords cur ++ " ") ++ word = joinWords (cur ++ [word]) := by
        rw [joinWords_append_one, if_neg hc]
      rw [wrapLoop_cons]
      simp only [if_pos hpos]
      rw [htest]
      by_cases hgt : Int.tdiv (m (joinWords (cur ++ [word]))) 64 > maxW
      · rw [if_pos hgt]
        obtain ⟨wss, hflat, hne2, heq⟩ :=
          ih [word] (acc ++ [cur]) hrest
            (fun w hmem => by simp only [List.mem_singleton] at hmem; subst hmem; exact hwne)
            (fun ws hws => by
              rcases List.mem_append.mp hws with h | h
              · exact hacc ws h
              · simp only [List.mem_singleton] at h
                subst h
                exact hc)
        have hjw1 : joinWords [word] = word := rfl
        rw [hjw1, List.map_append] at heq
        refine ⟨wss, ?_, hne2, ?_⟩
        · rw [hflat]
          simp
        · rw [← heq]
          rfl
      · rw [if_neg hgt]
        obtain ⟨wss, hflat, hne2, heq⟩ :=
          ih (cur ++ [word]) acc hrest
            (fun w hmem => by
              rcases List.mem_append.mp hmem with h | h
              · exact hcur w h
              · simp only [List.mem_singleton] at h
                subst h
                exact hwne)
            hacc
        refine ⟨wss, ?_, hne2, heq⟩
        rw [hflat]
        simp

lemma wrapLoop_width (m : String → Int) (maxW : Int) :
    ∀ (words : List String) (cur : String) (acc : List String),
      (∀ w ∈ words, Int.tdiv (m w) 64 ≤ maxW) →
      (cur = "" ∨ Int.tdiv (m cur) 64 ≤ maxW) →
      (∀ l ∈ acc, Int.tdiv (m l) 64 ≤ maxW) →
      ∀ l ∈ wrapLoop m maxW words cur acc, Int.tdiv (m l) 64 ≤ maxW := by
  intro words
  induction words with
  | nil =>
    intro cur acc hw hcur hacc l hl
    rw [wrapLoop_nil] at hl
    by_cases hpos : 0 < cur.length
    · rw [if_pos hpos] at hl
      rcases List.mem_append.mp hl with h | h
      · exact hacc l h
      · simp only [List.mem_singleton] at h
        subst h
        rcases hcur with h | h
        · rw [h] at hpos
          simp at hpos
        · exact h
    · rw [if_neg hpos] at hl
      exact hacc l hl
  | cons word rest ih =>
    intro cur acc hw hcur hacc l hl
    have hword : Int.tdiv (m word) 64 ≤ maxW := hw word (by simp)
    have hrest : ∀ w ∈ rest, Int.tdiv (m w) 64 ≤ maxW :=
      fun w hmem => hw w (by simp [hmem])
    rw [wrapLoop_cons] at hl
    by_cases hgt :
        Int.tdiv (m ((if 0 < cur.length then cur ++ " " else cur) ++ word)) 64 >
          maxW
    · rw [if_pos hgt] at hl
      refine ih word _ hrest (Or.inr hword) ?_ l hl
      intro x hx
      by_cases hpos : 0 < cur.length
      · rw [if_pos hpos] at hx
        rcases List.mem_append.mp hx with h | h
        · exact hacc x h
        · simp only [List.mem_singleton] at h
          subst h
          rcases hcur with h | h
          · rw [h] at hpos
            simp at hpos
          · exact h
      · rw [if_neg hpos] at hx
        exact hacc x hx
    · rw [if_neg hgt] at hl
      exact ih _ acc hrest (Or.inr (not_lt.mp hgt)) hacc l hl

lemma wrapLoop_ne_nil (m : String → Int) (maxW : Int) :
    ∀ (words : List String) (cur : String) (acc : List String),
      (∀ w ∈ words, w ≠ "") →
      (words ≠ [] ∨ cur ≠ "" ∨ acc ≠ []) →
      wrapLoop m maxW words cur acc ≠ [] := by
  intro words
  induction words with
  | nil =>
    intro cur acc hw hor
    rw [wrapLoop_nil]
    by_cases hpos : 0 < cur.length
    · rw [if_pos hpos]
      simp
    · rw [if_neg hpos]
      have hcur : cur = "" := by
        by_contra hne
        exact hpos ((strLengthPosIff cur).mpr hne)
      rcases hor with h | h | h
      · exact absurd rfl h
      · exact absurd hcur h
      · exact h
  | cons word rest ih =>
    intro cur acc hw hor
    have hwne : word ≠ "" := hw word (by simp)
    have hrest : ∀ w ∈ rest, w ≠ "" := fun w hmem => hw w (by simp [hmem])
    rw [wrapLoop_cons]
    by_cases hgt :
        Int.tdiv (m ((if 0 < cur.length then cur ++ " " else cur) ++ word)) 64 >
          maxW
    · rw [if_pos hgt]
      exact ih word _ hrest (Or.inr (Or.inl hwne))
    · rw [if_neg hgt]
      exact ih _ acc hrest
        (Or.inr (Or.inl (strAppendNeEmptyRight _ word hwne)))

lemma fieldsAux_words_ne_nil :
    ∀ (cs : List Char) (cur : List Char), ∀ ws ∈ fieldsAux cs cur, ws ≠ [] := by
  intro cs
  induction cs with
  | nil =>
    intro cur ws hws
    unfold fieldsAux at hws
    by_cases hc : cur = []
    · rw [if_pos hc] at hws
      simp at hws
    · rw [if_neg hc] at hws
      simp only [List.mem_singleton] at hws
      subst hws
      simpa using hc
  | cons c rest ih =>
    intro cur ws hws
    unfold fieldsAux at hws
    by_cases hsp : isGoSpace c
    · rw [if_pos hsp] at hws
      by_cases hc : cur = []
      · rw [if_pos hc] at hws
        exact ih [] ws hws
      · rw [if_neg hc] at hws
        rcases List.mem_cons.mp hws with h | h
        · subst h
          simpa using hc
        · exact ih [] ws h
    · rw [if_neg hsp] at hws
      exact ih (c :: cur) ws hws

lemma goFields_words_ne_empty (s : String) : ∀ w ∈ goFields s, w ≠ "" := by
  intro w hw
  unfold goFields at hw
  rcases List.mem_map.mp hw with ⟨ws, hws, hmk⟩
  subst hmk
  rw [ne_eq, strEqEmptyIffData]
  exact fieldsAux_words_ne_nil s.data [] ws hws

lemma fieldsAux_ne_nil_of_cur :
    ∀ (cs : List Char) (cur : List Char), cur ≠ [] → fieldsAux cs cur ≠ [] := by
  intro cs
  induction cs with
  | nil =>
    intro cur hc
    unfold fieldsAux
    rw [if_neg hc]
    simp
  | cons c rest ih =>
    intro cur hc
    unfold fieldsAux
    by_cases hsp : isGoSpace c
    · rw [if_pos hsp, if_neg hc]
      simp
    · rw [if_neg hsp]
      exact ih (c :: cur) (by simp)

lemma fieldsAux_ne_nil_of_char :
    ∀ (cs : List Char) (cur : List Char),
      (∃ c ∈ cs, isGoSpace c = false) → fieldsAux cs cur ≠ [] := by
  intro cs
  induction cs with
  | nil =>
    intro cur h
    simp at h
  | cons c rest ih =>
    intro cur h
    unfold fieldsAux
    by_cases hsp : isGoSpace c
    · rw [if_pos hsp]
      obtain ⟨d, hd, hns⟩ := h
      rcases List.mem_cons.mp hd with h | h
      · subst h
        rw [hsp] at hns
        simp at hns
      · by_cases hc : cur = []
        · rw [if_pos hc]
          exact ih [] ⟨d, h, hns⟩
        · rw [if_neg hc]
          simp
    · rw [if_neg hsp]
      exact fieldsAux_ne_nil_of_cur rest (c :: cur) (by simp)

lemma goFields_ne_nil (s : String) (h : ∃ c ∈ s.data, isGoSpace c = false) :
    goFields s ≠ [] := by
  unfold goFields
  rw [ne_eq, List.map_eq_nil_iff]
  exact fieldsAux_ne_nil_of_char s.data [] h

/-- C6: for any measuring function and any text all of whose
whitespace-delimited words individually measure within width - 30, the
wrapped lines partition the word sequence in order (each line is its
group of consecutive words joined by single spaces), and every output
line measures within width - 30. -/
theorem wrap_text_c6 (measureString : String → Int) (width : Int)
    (text : String)
    (hfit : ∀ w ∈ goFields text,
      Int.tdiv (measureString w) 64 ≤ width - 30) :
    (∃ wss : List (List String),
      wss.flatten = goFields text ∧ (∀ ws ∈ wss, ws ≠ []) ∧
      wrapText text measureString (width - 30) = wss.map joinWords) ∧
    (∀ line ∈ wrapText text measureString (width - 30),
      Int.tdiv (measureString line) 64 ≤ width - 30) := by
  constructor
  · obtain ⟨wss, hflat, hne, heq⟩ := wrapLoop_partition measureString (width - 30)
      (goFields text) [] [] (goFields_words_ne_empty text) (by simp) (by simp)
    exact ⟨wss, by simpa using hflat, hne, heq⟩
  · intro line hl
    exact wrapLoop_width measureString (width - 30) (goFields text) "" []
      hfit (Or.inl rfl) (by simp) line hl

/-- Witness for C6 at a concrete text and measuring function. -/
theorem wrap_text_c6_witness :
    (∃ wss : List (List String),
      wss.flatten = goFields "lorem ipsum" ∧ (∀ ws ∈ wss, ws ≠ []) ∧
      wrapText "lorem ipsum" (fun _ => (0 : Int)) (300 - 30) =
        wss.map joinWords) ∧
    (∀ line ∈ wrapText "lorem ipsum" (fun _ => (0 : Int)) (300 - 30),
      Int.tdiv ((fun _ => (0 : Int)) line) 64 ≤ 300 - 30) :=
  wrap_text_c6 (fun _ => (0 : Int)) 300 "lorem ipsum" (by decide)

/-- C7 (counterexample): " " is a non-empty resolved text (a caller
text of one space is used verbatim by `setText`), yet `wrapText` returns
the empty list of lines, because `strings.Fields` yields no words. -/
theorem wrap_text_c7_counterexample :
    (" " : String) ≠ "" ∧
    (resolve ⟨"150", "", " ", "", ""⟩).map GoImage.text = some " " ∧
    wrapText " " (fun _ => (0 : Int)) 120 = [] := by
  refine ⟨by decide, ?_, by decide⟩
  rw [resolve_eq ⟨"150", "", " ", "", ""⟩ 150 150 (.finite ((150 : ℚ) / 5)) " "
    defaultBg defaultFg (by decide)
    (parseFontSize_default "" _ goParseFloat_empty) (by decide) (by decide)]
  rfl

/-- C7 (amended): for every resolved text containing at least one
non-whitespace character, the layout engine returns a non-empty ordered
sequence of lines, with the word order of the source text preserved. -/
theorem wrap_text_c7_amended (measureString : String → Int) (maxWidth : Int)
    (text : String) (h : ∃ c ∈ text.data, isGoSpace c = false) :
    wrapText text measureString maxWidth ≠ [] ∧
    ∃ wss : List (List String),
      wss.flatten = goFields text ∧ (∀ ws ∈ wss, ws ≠ []) ∧
      wrapText text measureString maxWidth = wss.map joinWords := by
  constructor
  · exact wrapLoop_ne_nil measureString maxWidth (goFields text) "" []
      (goFields_words_ne_empty text) (Or.inl (goFields_ne_nil text h))
  · obtain ⟨wss, hflat, hne, heq⟩ := wrapLoop_partition measureString maxWidth
      (goFields text) [] [] (goFields_words_ne_empty text) (by simp) (by simp)
    exact ⟨wss, by simpa using hflat, hne, heq⟩

/-- Witness for C7 (amended) at a concrete text. -/
theorem wrap_text_c7_amended_witness :
    wrapText "hi" (fun _ => (0 : Int)) 270 ≠ [] ∧
    ∃ wss : List (List String),
      wss.flatten = goFields "hi" ∧ (∀ ws ∈ wss, ws ≠ []) ∧
      wrapText "hi" (fun _ => (0 : Int)) 270 = wss.map joinWords :=
  wrap_text_c7_amended (fun _ => (0 : Int)) 270 "hi" (by decide)

end Proofs

end Placeholder
